import Mathlib

/-!
Verification of the ami-util image-resolution and replacement engine.

The definitions below are a shallow embedding of the Go sources:
  internal/aws/aws.go          (resolution strategy and content rewriter)
  internal/fileprocessor/processor.go  (file-tree mutator)
Strings are modelled as lists of characters (Go strings are sequences of
bytes/runes; all identifiers involved are ASCII).  Timestamps are modelled
as integers (`time.Time` ordered by `After`).  The EC2 image directory and
the filesystem are modelled as explicit environments passed to the
functions that consume them.
-/

namespace AmiUtil

/-- Go `string`, modelled as a list of characters. -/
abbrev Str := List Char

/-! ### Go `strings` primitives

`strings.Count`, `strings.ReplaceAll` and `strings.Contains` as used by
`ReplaceAMIsInContent` and `processAMIID`.  Both `Count` and `ReplaceAll`
scan left to right and treat occurrences as non-overlapping, advancing
past each match.  The recursion is fuelled by the length of the scanned
string so that every definition is structural and kernel-evaluable. -/

/-- Leftmost, non-overlapping occurrence count of a nonempty `old` in `s`
(fuelled; `fuel ≥ s.length` suffices).  Mirrors Go `strings.Count` for a
nonempty substring. -/
def countOccF : Nat → Str → Str → Nat
  | 0, _, _ => 0
  | fuel + 1, old, s =>
    match s with
    | [] => 0
    | c :: rest =>
      if old.isPrefixOf (c :: rest) then
        1 + countOccF fuel old ((c :: rest).drop old.length)
      else
        countOccF fuel old rest

/-- Go `strings.Count s substr`: for an empty substring Go returns
`len(s) + 1`; otherwise the number of non-overlapping instances. -/
def strCount (s substr : Str) : Nat :=
  if substr.isEmpty then s.length + 1 else countOccF s.length substr s

/-- Leftmost, non-overlapping replacement of nonempty `old` by `new` in `s`
(fuelled; `fuel ≥ s.length` suffices).  Mirrors Go `strings.ReplaceAll`
for a nonempty pattern. -/
def replaceAllF : Nat → Str → Str → Str → Str
  | 0, _, _, s => s
  | fuel + 1, old, new, s =>
    match s with
    | [] => []
    | c :: rest =>
      if old.isPrefixOf (c :: rest) then
        new ++ replaceAllF fuel old new ((c :: rest).drop old.length)
      else
        c :: replaceAllF fuel old new rest

/-- Go `strings.ReplaceAll s old new`: when `old` is empty Go inserts
`new` at the start and after every character; otherwise all
non-overlapping instances of `old` are replaced by `new`. -/
def strReplaceAll (s old new : Str) : Str :=
  if old.isEmpty then new ++ (s.map (fun c => c :: new)).flatten
  else replaceAllF s.length old new s

/-- Go `strings.Contains s pat` (here with the pattern as first argument):
`pat` occurs as a contiguous substring of `s`. -/
def isSubstr (pat : Str) : Str → Bool
  | [] => pat.isEmpty
  | c :: rest => pat.isPrefixOf (c :: rest) || isSubstr pat rest

/-! ### Content rewriter (`aws.go`, `ReplaceAMIsInContent`) -/

/-- `aws.AMIReplacement`: one replacement mapping. -/
structure AMIReplacement where
  OldAMI : Str
  NewAMI : Str
  Name : Str
deriving DecidableEq

/-- Loop body of `ReplaceAMIsInContent`: count occurrences of the mapping's
old identifier in the current content; if positive, replace them all and
add the count to the running total. -/
def replaceStep (acc : Str × Nat) (replacement : AMIReplacement) : Str × Nat :=
  let oldCount := strCount acc.1 replacement.OldAMI
  if 0 < oldCount then
    (strReplaceAll acc.1 replacement.OldAMI replacement.NewAMI, acc.2 + oldCount)
  else
    acc

/-- `aws.ReplaceAMIsInContent content replacements`: fold `replaceStep`
over the plan in order, starting from the original content and a zero
count. -/
def ReplaceAMIsInContent (content : Str) (replacements : List AMIReplacement) : Str × Nat :=
  replacements.foldl replaceStep (content, 0)

/-! ### Basic lemmas about the rewriter -/

lemma isSubstr_cons_eq_false {pat : Str} {c : Char} {rest : Str}
    (h : isSubstr pat (c :: rest) = false) :
    pat.isPrefixOf (c :: rest) = false ∧ isSubstr pat rest = false := by
  simpa [isSubstr, Bool.or_eq_false_iff] using h

lemma countOccF_eq_zero_of_not_substr (old : Str) :
    ∀ (fuel : Nat) (s : Str), isSubstr old s = false → countOccF fuel old s = 0 := by
  intro fuel
  induction fuel with
  | zero => intro s _; rfl
  | succ fuel ih =>
    intro s h
    cases s with
    | nil => rfl
    | cons c rest =>
      obtain ⟨h1, h2⟩ := isSubstr_cons_eq_false h
      simp [countOccF, h1, ih rest h2]

lemma strCount_eq_zero_of_not_substr {s old : Str} (h : isSubstr old s = false) :
    strCount s old = 0 := by
  have hold : old.isEmpty = false := by
    cases old with
    | nil =>
      exfalso
      cases s with
      | nil => simp [isSubstr, List.isEmpty] at h
      | cons c rest => simp [isSubstr, List.isPrefixOf] at h
    | cons d ds => rfl
  simp [strCount, hold, countOccF_eq_zero_of_not_substr old s.length s h]

lemma replaceStep_eq_self {content : Str} {n : Nat} {r : AMIReplacement}
    (h : isSubstr r.OldAMI content = false) :
    replaceStep (content, n) r = (content, n) := by
  simp [replaceStep, strCount_eq_zero_of_not_substr h]

lemma foldl_replaceStep_noop :
    ∀ (replacements : List AMIReplacement) (content : Str) (n : Nat),
      (∀ r ∈ replacements, isSubstr r.OldAMI content = false) →
      replacements.foldl replaceStep (content, n) = (content, n) := by
  intro replacements
  induction replacements with
  | nil => intro content n _; rfl
  | cons r rest ih =>
    intro content n h
    have hr : isSubstr r.OldAMI content = false := h r (List.mem_cons_self r rest)
    have hrest : ∀ x ∈ rest, isSubstr x.OldAMI content = false :=
      fun x hx => h x (List.mem_cons_of_mem r hx)
    simp [List.foldl_cons, replaceStep_eq_self hr, ih content n hrest]

/-! ### Resolution strategy (`aws.go`, `processPattern` / `processAMIID` /
`processPatternBased`)

The EC2 image directory is abstracted as an environment (`Directory`)
that answers the two queries the code issues (`findAMIByID` and
`findAMIsByPattern`), already parsed into `AMIInfo` records (the code
silently drops records whose creation date fails to parse; the
environment holds the surviving records). -/

/-- `aws.AMIInfo`: one image record (owner/region omitted — they do not
influence resolution once the query result is fixed).  `CreationDate`
models `time.Time` ordered by `After` (strictly greater = more recent). -/
structure AMIInfo where
  ImageID : Str
  Name : Str
  CreationDate : Int
deriving DecidableEq

/-- The comparison underlying `sort.Slice(amis, amis[i].CreationDate.After(amis[j].CreationDate))`:
`a` sorts no later than `b` when `b`'s creation date is at most `a`'s. -/
def amiGE (a b : AMIInfo) : Prop := b.CreationDate ≤ a.CreationDate

instance : DecidableRel amiGE := fun a b => Int.decLe b.CreationDate a.CreationDate

instance : IsTotal AMIInfo amiGE :=
  ⟨fun a b => (Int.le_total b.CreationDate a.CreationDate).elim Or.inl Or.inr⟩

instance : IsTrans AMIInfo amiGE :=
  ⟨fun _ _ _ hab hbc => le_trans hbc hab⟩

/-- The `sort.Slice` call of `processAMIID`/`processPatternBased`: order
the candidates by creation timestamp, most recent first. -/
def sortByCreationDesc (amis : List AMIInfo) : List AMIInfo :=
  List.insertionSort amiGE amis

/-- `a` is a most-recent candidate of `amis`. -/
def isLatest (amis : List AMIInfo) (a : AMIInfo) : Prop :=
  a ∈ amis ∧ ∀ b ∈ amis, b.CreationDate ≤ a.CreationDate

instance (amis : List AMIInfo) (a : AMIInfo) : Decidable (isLatest amis a) := by
  unfold isLatest; infer_instance

/-- `errors.Is(err, ErrAMINotFound)` distinguishes the not-found condition
from other lookup failures. -/
inductive AmiError where
  | notFound
  | other (msg : Str)
deriving DecidableEq

/-- Errors surfaced by `processPattern` (wrapping `fmt.Errorf`). -/
inductive ProcError where
  | findByIdFailed (amiID msg : Str)
  | patternQueryFailed (pat msg : Str)
deriving DecidableEq

/-- The image directory as seen by `processPattern`: `byId` models
`findAMIByID ec2Client accountID`, `byPattern` models
`findAMIsByPattern ec2Client accountID`. -/
structure Directory where
  byId : Str → Except AmiError AMIInfo
  byPattern : Str → Except Str (List AMIInfo)

/-- The hard-coded family token of `processAMIID`. -/
def brToken : Str := "bottlerocket-aws-ecs-2-aarch64-".toList

/-- The wildcard form substituted for names containing `brToken`. -/
def brGlob : Str := "bottlerocket-aws-ecs-2-aarch64-*".toList

/-- The literal identifier tag tested by `processPattern`. -/
def amiIdTag : Str := "ami-".toList

/-- `aws.processPatternBased` after its directory query: sort the
candidates most-recent-first, take the head as the replacement target and
emit one mapping per remaining candidate. -/
def processPatternBased (amis : List AMIInfo) : List AMIReplacement :=
  if amis.isEmpty then []
  else
    match sortByCreationDesc amis with
    | [] => []
    | latest :: rest =>
      rest.map (fun ami => ⟨ami.ImageID, latest.ImageID, ami.Name⟩)

/-- `aws.processPatternBased` with its query and error wrapping. -/
def processPatternBasedE (dir : Directory) (pat : Str) : Except ProcError (List AMIReplacement) :=
  match dir.byPattern pat with
  | .error msg => .error (ProcError.patternQueryFailed pat msg)
  | .ok amis => .ok (processPatternBased amis)

/-- `aws.processAMIID`: look the identifier up; not-found is silently an
empty result, any other failure is wrapped as an error.  Derive the
re-query pattern from the found record's name (with the hard-coded
bottlerocket family canonicalised to its glob), re-query, sort
most-recent-first, and emit a single mapping iff the most recent
candidate differs from the found record. -/
def processAMIID (dir : Directory) (amiID : Str) : Except ProcError (List AMIReplacement) :=
  match dir.byId amiID with
  | .error AmiError.notFound => .ok []
  | .error (AmiError.other msg) => .error (ProcError.findByIdFailed amiID msg)
  | .ok amiInfo =>
    let pat := if isSubstr brToken amiInfo.Name then brGlob else amiInfo.Name
    match dir.byPattern pat with
    | .error msg => .error (ProcError.patternQueryFailed pat msg)
    | .ok amis =>
      if amis.isEmpty then .ok []
      else
        match sortByCreationDesc amis with
        | [] => .ok []
        | latest :: _ =>
          if amiInfo.ImageID ≠ latest.ImageID then
            .ok [⟨amiInfo.ImageID, latest.ImageID, amiInfo.Name⟩]
          else
            .ok []

/-- `aws.processPattern`: mode dispatch on the literal `"ami-"` lead. -/
def processPattern (dir : Directory) (pat : Str) : Except ProcError (List AMIReplacement) :=
  if amiIdTag.isPrefixOf pat then processAMIID dir pat
  else processPatternBasedE dir pat

/-! ### Lemmas about the sorted candidate list -/

lemma sortByCreationDesc_perm (amis : List AMIInfo) :
    (sortByCreationDesc amis).Perm amis :=
  List.perm_insertionSort amiGE amis

lemma sortByCreationDesc_sorted (amis : List AMIInfo) :
    List.Sorted amiGE (sortByCreationDesc amis) :=
  List.sorted_insertionSort amiGE amis

/-- Distinctness of creation dates is preserved by sorting. -/
lemma sortByCreationDesc_pairwise_dates {amis : List AMIInfo}
    (h : List.Pairwise (fun x y => x.CreationDate ≠ y.CreationDate) amis) :
    List.Pairwise (fun x y => x.CreationDate ≠ y.CreationDate) (sortByCreationDesc amis) := by
  exact ((sortByCreationDesc_perm amis).pairwise_iff (fun hxy => Ne.symm hxy)).mpr h

/-- Distinctness of identifiers is preserved by sorting. -/
lemma sortByCreationDesc_pairwise_ids {amis : List AMIInfo}
    (h : List.Pairwise (fun x y => x.ImageID ≠ y.ImageID) amis) :
    List.Pairwise (fun x y => x.ImageID ≠ y.ImageID) (sortByCreationDesc amis) := by
  exact ((sortByCreationDesc_perm amis).pairwise_iff (fun hxy => Ne.symm hxy)).mpr h

/-- With pairwise-distinct creation dates, the head of the sorted list is
exactly the (unique) most-recent candidate. -/
lemma sortByCreationDesc_eq_cons_of_isLatest {amis : List AMIInfo} {a : AMIInfo}
    (hdates : List.Pairwise (fun x y => x.CreationDate ≠ y.CreationDate) amis)
    (ha : isLatest amis a) :
    ∃ rest, sortByCreationDesc amis = a :: rest := by
  obtain ⟨hmem, hmax⟩ := ha
  have hperm := sortByCreationDesc_perm amis
  have hmem' : a ∈ sortByCreationDesc amis := hperm.mem_iff.mpr hmem
  cases hs : sortByCreationDesc amis with
  | nil => rw [hs] at hmem'; exact absurd hmem' (List.not_mem_nil a)
  | cons h t =>
    refine ⟨t, ?_⟩
    rw [hs] at hmem'
    rcases List.mem_cons.mp hmem' with heq | hmem_t
    · rw [heq]
    · exfalso
      have hsorted := sortByCreationDesc_sorted amis
      rw [hs] at hsorted
      have hge : amiGE h a := (List.sorted_cons.mp hsorted).1 a hmem_t
      have hh_mem : h ∈ amis := hperm.mem_iff.mp (by rw [hs]; exact List.mem_cons_self h t)
      have hle : h.CreationDate ≤ a.CreationDate := hmax h hh_mem
      have heqdate : a.CreationDate = h.CreationDate := le_antisymm hge hle
      have hpw := sortByCreationDesc_pairwise_dates hdates
      rw [hs] at hpw
      exact ((List.pairwise_cons.mp hpw).1 a hmem_t) heqdate.symm

/-! ### File-tree mutator (`processor.go`)

The filesystem is modelled as a map from path to file content (`none` =
unreadable / absent).  `os.WriteFile` failures are injected through an
oracle `wfail : Str → Bool` (`true` = the write to that path fails); a
failed write leaves the filesystem unchanged. -/

/-- The filesystem: path to content, `none` when the file cannot be read. -/
def FS := Str → Option Str

/-- `os.WriteFile path content perm` under the failure oracle: `none` on
failure (filesystem unchanged), otherwise the updated filesystem. -/
def writeFile (fs : FS) (wfail : Str → Bool) (path content : Str) : Option FS :=
  if wfail path then none
  else some (fun p => if p = path then some content else fs p)

/-- The backup suffix appended by `ProcessFile`/`updateFileWithBackup`. -/
def bakSuffix : Str := ".backup".toList

/-- Outcome of a single-file mutation, corresponding to the spec's
`FileMutationResult` and the error returns of `ProcessFile`. -/
inductive FileResult where
  | readError (path : Str)
  | backupError (path : Str)
  | writeError (path : Str)
  | ok (substitutionCount : Nat) (backupPath : Option Str)
deriving DecidableEq

/-- `fileprocessor.ProcessFile`: read, rewrite; if the count is zero
return with nothing written; otherwise write the original bytes to the
backup sibling first, then the new content to the target.  Returns the
result together with the filesystem after the call. -/
def ProcessFile (fs : FS) (wfail : Str → Bool) (filePath : Str)
    (replacements : List AMIReplacement) : FileResult × FS :=
  match fs filePath with
  | none => (FileResult.readError filePath, fs)
  | some content =>
    let res := ReplaceAMIsInContent content replacements
    if res.2 = 0 then (FileResult.ok 0 none, fs)
    else
      let backupPath := filePath ++ bakSuffix
      match writeFile fs wfail backupPath content with
      | none => (FileResult.backupError filePath, fs)
      | some fs1 =>
        match writeFile fs1 wfail filePath res.1 with
        | none => (FileResult.writeError filePath, fs1)
        | some fs2 => (FileResult.ok res.2 (some backupPath), fs2)

/-- `fileprocessor.updateFileWithBackup`: backup write then target write;
`false` with the intermediate filesystem on failure. -/
def updateFileWithBackup (fs : FS) (wfail : Str → Bool)
    (file originalContent newContent : Str) : Bool × FS :=
  match writeFile fs wfail (file ++ bakSuffix) originalContent with
  | none => (false, fs)
  | some fs1 =>
    match writeFile fs1 wfail file newContent with
    | none => (false, fs1)
    | some fs2 => (true, fs2)

/-- `fileprocessor.processSingleFile`: read, rewrite, and update with
backup when the count is positive; `none` signals the error the caller
logs and skips. -/
def processSingleFile (fs : FS) (wfail : Str → Bool) (file : Str)
    (replacements : List AMIReplacement) : Option Nat × FS :=
  match fs file with
  | none => (none, fs)
  | some content =>
    let res := ReplaceAMIsInContent content replacements
    if 0 < res.2 then
      match updateFileWithBackup fs wfail file content res.1 with
      | (false, fs1) => (none, fs1)
      | (true, fs2) => (some res.2, fs2)
    else (some res.2, fs)

/-- `fileprocessor.processFiles`: fold over the collected files, summing
the per-file substitution counts; a failed file contributes nothing and
processing continues. -/
def processFiles (fs : FS) (wfail : Str → Bool) (files : List Str)
    (replacements : List AMIReplacement) : Nat × FS :=
  files.foldl
    (fun acc file =>
      match processSingleFile acc.2 wfail file replacements with
      | (none, fs1) => (acc.1, fs1)
      | (some n, fs1) => (acc.1 + n, fs1))
    (0, fs)

/-- Lowercase hex digit, as in the regex `ami-[a-f0-9]{8,17}`. -/
def isHexLower (c : Char) : Bool :=
  ('a' ≤ c && c ≤ 'f') || ('0' ≤ c && c ≤ '9')

/-- The regex `ami-[a-f0-9]{8,17}` matches at the head of `s`. -/
def hasAMIAt (s : Str) : Bool :=
  amiIdTag.isPrefixOf s && decide (8 ≤ ((s.drop 4).takeWhile isHexLower).length)

/-- `regexp.MustCompile("ami-[a-f0-9]\x7b8,17\x7d").Match content`:
the identifier syntax occurs somewhere in the content. -/
def containsAMIToken : Str → Bool
  | [] => false
  | c :: rest => hasAMIAt (c :: rest) || containsAMIToken rest

/-- `filepath.Ext`: the suffix of the final slash-separated element
beginning at its last dot; empty when that element has no dot. -/
def extOf (p : Str) : Str :=
  let lastElemRev := p.reverse.takeWhile (fun c => c != '/')
  let afterDotRev := lastElemRev.takeWhile (fun c => c != '.')
  if afterDotRev.length = lastElemRev.length then []
  else '.' :: afterDotRev.reverse

/-- The recognised text-file extensions of `isTextFile`. -/
def textExtensions : List Str :=
  [".yaml".toList, ".yml".toList, ".json".toList, ".txt".toList, ".tf".toList,
   ".hcl".toList, ".conf".toList, ".cfg".toList, ".ini".toList, ".env".toList,
   ".sh".toList, ".bash".toList, ".zsh".toList, ".fish".toList, ".ps1".toList,
   ".bat".toList, ".cmd".toList, ".xml".toList, ".toml".toList]

/-- `fileprocessor.isTextFile`: recognised extension, or — failing that —
readable content containing an image-identifier token. -/
def isTextFile (fs : FS) (filePath : Str) : Bool :=
  if textExtensions.contains ((extOf filePath).map Char.toLower) then true
  else
    match fs filePath with
    | none => false
    | some content => containsAMIToken content

/-- `fileprocessor.collectFiles`: the walk's non-directory entries (given
in traversal order) that do not carry the backup suffix and classify as
text files. -/
def collectFiles (fs : FS) (paths : List Str) : List Str :=
  paths.filter (fun p => !(bakSuffix.isSuffixOf p) && isTextFile fs p)

/-- `fileprocessor.ProcessDirectory`: collect eligible files, process
them, and report `(totalReplacements, len(files))` — the pair logged by
`"Total AMI replacements made: %d across %d files"` — together with the
final filesystem. -/
def ProcessDirectory (fs : FS) (wfail : Str → Bool) (paths : List Str)
    (replacements : List AMIReplacement) : Nat × Nat × FS :=
  let files := collectFiles fs paths
  let res := processFiles fs wfail files replacements
  (res.1, files.length, res.2)

/-! ### Shared helper lemmas and concrete example data -/

lemma ne_append_bakSuffix (p : Str) : p ≠ p ++ bakSuffix := by
  intro h
  have hlen := congrArg List.length h
  simp [bakSuffix] at hlen

/-- An example replacement plan used by the witnesses. -/
def exPlan : List AMIReplacement :=
  [⟨"ami-11111111".toList, "ami-22222222".toList, "example-image".toList⟩]

/-- An example plan whose new identifier contains its old identifier. -/
def cePlan : List AMIReplacement :=
  [⟨"ami-aaaaaaaa".toList, "ami-aaaaaaaaa".toList, "example-image".toList⟩]

/-! ## Claim C4 — no-op rewrite on non-matching content -/

/-- Claim C4: for every content string and plan in which no mapping's old
identifier occurs as a substring of the content, `ReplaceAMIsInContent`
returns the content unchanged with a substitution count of 0. -/
theorem rewrite_noop_on_nonmatching (content : Str) (plan : List AMIReplacement)
    (h : ∀ r ∈ plan, isSubstr r.OldAMI content = false) :
    ReplaceAMIsInContent content plan = (content, 0) :=
  foldl_replaceStep_noop plan content 0 h

/-- Witness for C4 at concrete input. -/
theorem rewrite_noop_on_nonmatching_witness :
    isSubstr ("ami-11111111".toList) ("hello world".toList) = false
    ∧ ReplaceAMIsInContent ("hello world".toList) exPlan = ("hello world".toList, 0) :=
  ⟨by decide, rewrite_noop_on_nonmatching ("hello world".toList) exPlan (by decide)⟩

/-! ## Claim C2 — idempotence of content rewriting

The claim is false as stated: a mapping whose new identifier contains its
old identifier (here `ami-aaaaaaaa` → `ami-aaaaaaaaa`) reintroduces the
old token, so a second application substitutes again. -/

/-- Counterexample to claim C2: applying `cePlan` to the output of a first
application of `cePlan` performs a further substitution. -/
theorem rewrite_idempotence_counterexample :
    (ReplaceAMIsInContent
      (ReplaceAMIsInContent ("ami-aaaaaaaa".toList) cePlan).1 cePlan).2 ≠ 0 := by
  decide

/-- Claim C2 (amended): the second application of a plan performs zero
further substitutions and leaves the content unchanged provided no
mapping's old identifier occurs as a substring of the first application's
output (which can fail when a new identifier contains an old one). -/
theorem rewrite_idempotent_of_no_old_in_output (content : Str) (plan : List AMIReplacement)
    (h : ∀ r ∈ plan, isSubstr r.OldAMI (ReplaceAMIsInContent content plan).1 = false) :
    ReplaceAMIsInContent (ReplaceAMIsInContent content plan).1 plan
      = ((ReplaceAMIsInContent content plan).1, 0) :=
  foldl_replaceStep_noop plan (ReplaceAMIsInContent content plan).1 0 h

/-- Witness for the amended C2 at concrete input. -/
theorem rewrite_idempotent_of_no_old_in_output_witness :
    isSubstr ("ami-11111111".toList)
      (ReplaceAMIsInContent ("use ami-11111111 here".toList) exPlan).1 = false
    ∧ ReplaceAMIsInContent
        (ReplaceAMIsInContent ("use ami-11111111 here".toList) exPlan).1 exPlan
      = ((ReplaceAMIsInContent ("use ami-11111111 here".toList) exPlan).1, 0) :=
  ⟨by decide,
   rewrite_idempotent_of_no_old_in_output ("use ami-11111111 here".toList) exPlan (by decide)⟩

/-! ## Claim C6 — frame condition on clean files -/

/-- Claim C6: when the rewrite yields zero substitutions, single-file
processing writes nothing: the whole filesystem is returned untouched (in
particular no backup sibling appears) and the result reports a zero count
with no backup path. -/
theorem clean_file_untouched (fs : FS) (wfail : Str → Bool) (filePath : Str)
    (replacements : List AMIReplacement) (content : Str)
    (hread : fs filePath = some content)
    (hzero : (ReplaceAMIsInContent content replacements).2 = 0) :
    ProcessFile fs wfail filePath replacements = (FileResult.ok 0 none, fs) := by
  simp [ProcessFile, hread, hzero]

/-- A one-file filesystem whose file contains no stale identifier. -/
def exCleanFS : FS :=
  fun p => if p = "a.yaml".toList then some ("hello world".toList) else none

/-- Witness for C6 at concrete input. -/
theorem clean_file_untouched_witness :
    exCleanFS ("a.yaml".toList) = some ("hello world".toList)
    ∧ (ReplaceAMIsInContent ("hello world".toList) exPlan).2 = 0
    ∧ ProcessFile exCleanFS (fun _ => false) ("a.yaml".toList) exPlan
        = (FileResult.ok 0 none, exCleanFS) :=
  ⟨by decide, by decide,
   clean_file_untouched exCleanFS (fun _ => false) ("a.yaml".toList) exPlan
     ("hello world".toList) (by decide) (by decide)⟩

/-! ## Claim C3 — backup-before-write atomicity -/

/-- Claim C3: in a single-file mutation with a positive substitution
count, the backup is written before the target: if the backup write
fails, `ProcessFile` returns an error with the filesystem — in particular
the target file — unchanged; and if the backup write succeeds but the
target write fails, the backup already holds the original bytes while the
target still has its original content. -/
theorem backup_before_write_atomicity (fs : FS) (wfail : Str → Bool) (filePath : Str)
    (replacements : List AMIReplacement) (content newContent : Str) (n : Nat)
    (hread : fs filePath = some content)
    (hrw : ReplaceAMIsInContent content replacements = (newContent, n))
    (hn : n ≠ 0) :
    (wfail (filePath ++ bakSuffix) = true →
        ProcessFile fs wfail filePath replacements = (FileResult.backupError filePath, fs))
    ∧ (wfail (filePath ++ bakSuffix) = false → wfail filePath = true →
        (ProcessFile fs wfail filePath replacements).1 = FileResult.writeError filePath
        ∧ (ProcessFile fs wfail filePath replacements).2 filePath = fs filePath
        ∧ (ProcessFile fs wfail filePath replacements).2 (filePath ++ bakSuffix) = some content) := by
  constructor
  · intro hb
    simp [ProcessFile, hread, hrw, hn, writeFile, hb]
  · intro hb hw
    refine ⟨?_, ?_, ?_⟩
    · simp [ProcessFile, hread, hrw, hn, writeFile, hb, hw]
    · simp [ProcessFile, hread, hrw, hn, writeFile, hb, hw, ne_append_bakSuffix filePath]
    · simp [ProcessFile, hread, hrw, hn, writeFile, hb, hw]

/-- A one-file filesystem whose file contains a stale identifier. -/
def exStaleFS : FS :=
  fun p => if p = "a.yaml".toList then some ("use ami-11111111".toList) else none

/-- A write oracle that fails exactly on backup paths. -/
def exBackupFail : Str → Bool := fun p => bakSuffix.isSuffixOf p

/-- Witness for C3 at concrete input. -/
theorem backup_before_write_atomicity_witness :
    exStaleFS ("a.yaml".toList) = some ("use ami-11111111".toList)
    ∧ ReplaceAMIsInContent ("use ami-11111111".toList) exPlan
        = ("use ami-22222222".toList, 1)
    ∧ exBackupFail ("a.yaml".toList ++ bakSuffix) = true
    ∧ ProcessFile exStaleFS exBackupFail ("a.yaml".toList) exPlan
        = (FileResult.backupError ("a.yaml".toList), exStaleFS) :=
  ⟨by decide, by decide, by decide,
   (backup_before_write_atomicity exStaleFS exBackupFail ("a.yaml".toList) exPlan
      ("use ami-11111111".toList) ("use ami-22222222".toList) 1
      (by decide) (by decide) (by decide)).1 (by decide)⟩

/-! ## Claim C1 — Mode B (name-glob) resolution -/

/-- Claim C1: for a candidate list of N ≥ 1 image records with
pairwise-distinct creation timestamps (and, records being distinct
images, pairwise-distinct identifiers), `processPatternBased` produces
exactly N−1 mappings: one per non-latest candidate, each mapping that
candidate's identifier and name to the most-recent candidate's
identifier; the most-recent identifier never appears as an old
identifier. -/
theorem mode_b_resolution (amis : List AMIInfo) (a : AMIInfo)
    (hdates : List.Pairwise (fun x y => x.CreationDate ≠ y.CreationDate) amis)
    (hids : List.Pairwise (fun x y => x.ImageID ≠ y.ImageID) amis)
    (ha : isLatest amis a) :
    (processPatternBased amis).length = amis.length - 1
    ∧ (∀ r ∈ processPatternBased amis, r.NewAMI = a.ImageID ∧ r.OldAMI ≠ a.ImageID)
    ∧ (∀ b ∈ amis, b ≠ a →
        (⟨b.ImageID, a.ImageID, b.Name⟩ : AMIReplacement) ∈ processPatternBased amis)
    ∧ (∀ r ∈ processPatternBased amis,
        ∃ b, b ∈ amis ∧ b ≠ a ∧ r = ⟨b.ImageID, a.ImageID, b.Name⟩) := by
  obtain ⟨rest, hsort⟩ := sortByCreationDesc_eq_cons_of_isLatest hdates ha
  have hne : amis ≠ [] := by
    intro h
    rw [h] at ha
    exact absurd ha.1 (List.not_mem_nil a)
  have hempty : amis.isEmpty = false := by
    cases amis with
    | nil => exact absurd rfl hne
    | cons x xs => rfl
  have hpb : processPatternBased amis
      = rest.map (fun ami => ⟨ami.ImageID, a.ImageID, ami.Name⟩) := by
    simp [processPatternBased, hempty, hsort]
  have hperm : (a :: rest).Perm amis := by
    rw [← hsort]; exact sortByCreationDesc_perm amis
  have hpwd : List.Pairwise (fun x y => x.CreationDate ≠ y.CreationDate) (a :: rest) := by
    rw [← hsort]; exact sortByCreationDesc_pairwise_dates hdates
  have hpwi : List.Pairwise (fun x y => x.ImageID ≠ y.ImageID) (a :: rest) := by
    rw [← hsort]; exact sortByCreationDesc_pairwise_ids hids
  have hhead_dates : ∀ b ∈ rest, a.CreationDate ≠ b.CreationDate :=
    (List.pairwise_cons.mp hpwd).1
  have hhead_ids : ∀ b ∈ rest, a.ImageID ≠ b.ImageID :=
    (List.pairwise_cons.mp hpwi).1
  have hrest_ne : ∀ b ∈ rest, b ≠ a := by
    intro b hb heq
    exact hhead_dates b hb (by rw [heq])
  refine ⟨?_, ?_, ?_, ?_⟩
  · rw [hpb, List.length_map]
    have := hperm.length_eq
    simp at this
    omega
  · intro r hr
    rw [hpb] at hr
    obtain ⟨b, hb, hfb⟩ := List.mem_map.mp hr
    constructor
    · rw [← hfb]
    · rw [← hfb]
      exact fun h => hhead_ids b hb h.symm
  · intro b hb hba
    rw [hpb]
    have hb' : b ∈ a :: rest := hperm.mem_iff.mpr hb
    rcases List.mem_cons.mp hb' with heq | hmem
    · exact absurd heq hba
    · exact List.mem_map.mpr ⟨b, hmem, rfl⟩
  · intro r hr
    rw [hpb] at hr
    obtain ⟨b, hb, hfb⟩ := List.mem_map.mp hr
    exact ⟨b, hperm.mem_iff.mp (List.mem_cons_of_mem a hb), hrest_ne b hb, hfb.symm⟩

/-- The scenario candidates: A at t=1, B at t=3, C at t=2. -/
def exAmis : List AMIInfo :=
  [⟨"ami-000000aa".toList, "img-a".toList, 1⟩,
   ⟨"ami-000000bb".toList, "img-b".toList, 3⟩,
   ⟨"ami-000000cc".toList, "img-c".toList, 2⟩]

/-- The most recent of `exAmis`. -/
def exLatest : AMIInfo := ⟨"ami-000000bb".toList, "img-b".toList, 3⟩

/-- Witness for C1 at concrete input. -/
theorem mode_b_resolution_witness :
    isLatest exAmis exLatest
    ∧ (processPatternBased exAmis).length = exAmis.length - 1 :=
  ⟨by decide,
   (mode_b_resolution exAmis exLatest (by decide) (by decide) (by decide)).1⟩

/-! ## Claim C5 — Mode A (exact-identifier) resolution -/

/-- Claim C5: when the queried identifier is found (the returned record
carrying that identifier) and the derived-pattern re-query returns a
non-empty candidate set with pairwise-distinct creation timestamps,
`processAMIID` emits exactly one mapping `{old = original identifier,
new = most-recent candidate's identifier, name = original record's
name}` if the most-recent candidate's identifier differs from the
original, and emits zero mappings otherwise. -/
theorem mode_a_single_step (dir : Directory) (amiID : Str) (amiInfo : AMIInfo)
    (amis : List AMIInfo) (a : AMIInfo)
    (hfound : dir.byId amiID = Except.ok amiInfo)
    (hid : amiInfo.ImageID = amiID)
    (hq : dir.byPattern (if isSubstr brToken amiInfo.Name then brGlob else amiInfo.Name)
        = Except.ok amis)
    (hne : amis ≠ [])
    (hdates : List.Pairwise (fun x y => x.CreationDate ≠ y.CreationDate) amis)
    (ha : isLatest amis a) :
    (a.ImageID ≠ amiID →
        processAMIID dir amiID = Except.ok [⟨amiID, a.ImageID, amiInfo.Name⟩])
    ∧ (a.ImageID = amiID → processAMIID dir amiID = Except.ok []) := by
  obtain ⟨rest, hsort⟩ := sortByCreationDesc_eq_cons_of_isLatest hdates ha
  have hempty : amis.isEmpty = false := by
    cases amis with
    | nil => exact absurd rfl hne
    | cons x xs => rfl
  constructor
  · intro hdiff
    have hii : amiInfo.ImageID ≠ a.ImageID := by
      rw [hid]; exact fun h => hdiff h.symm
    simp [processAMIID, hfound, hq, hempty, hsort, hii, hid]
    exact fun h => hdiff h.symm
  · intro heq
    have hii : amiInfo.ImageID = a.ImageID := by rw [hid, heq]
    simp [processAMIID, hfound, hq, hempty, hsort, hii]

/-- A directory for the Mode A scenario: identifier X found with name
matching two candidates, Y (t=2) more recent than X (t=1). -/
def exDirA : Directory :=
  ⟨fun i =>
     if i = "ami-000000aa".toList then
       Except.ok ⟨"ami-000000aa".toList, "img-a".toList, 1⟩
     else Except.error AmiError.notFound,
   fun p =>
     if p = "img-a".toList then
       Except.ok [⟨"ami-000000aa".toList, "img-a".toList, 1⟩,
                  ⟨"ami-000000yy".toList, "img-a".toList, 2⟩]
     else Except.ok []⟩

/-- Witness for C5 at concrete input. -/
theorem mode_a_single_step_witness :
    processAMIID exDirA ("ami-000000aa".toList)
      = Except.ok [⟨"ami-000000aa".toList, "ami-000000yy".toList, "img-a".toList⟩] :=
  (mode_a_single_step exDirA ("ami-000000aa".toList)
      ⟨"ami-000000aa".toList, "img-a".toList, 1⟩
      [⟨"ami-000000aa".toList, "img-a".toList, 1⟩,
       ⟨"ami-000000yy".toList, "img-a".toList, 2⟩]
      ⟨"ami-000000yy".toList, "img-a".toList, 2⟩
      rfl (by decide) rfl (by decide) (by decide) (by decide)).1
    (by decide)

/-! ## Claim C9 — not-found is silent in Mode A -/

/-- Claim C9: when the exact-identifier lookup reports the not-found
condition, `processAMIID` returns an empty mapping sequence and no error;
any other lookup failure is surfaced as an error. -/
theorem notfound_silent_mode_a (dir : Directory) (amiID : Str) :
    (dir.byId amiID = Except.error AmiError.notFound →
        processAMIID dir amiID = Except.ok [])
    ∧ (∀ msg, dir.byId amiID = Except.error (AmiError.other msg) →
        processAMIID dir amiID = Except.error (ProcError.findByIdFailed amiID msg)) := by
  constructor
  · intro h
    simp [processAMIID, h]
  · intro msg h
    simp [processAMIID, h]

/-- A directory in which every identifier is absent. -/
def exDirNone : Directory :=
  ⟨fun _ => Except.error AmiError.notFound, fun _ => Except.ok []⟩

/-- A directory whose identifier lookup fails with a transport error. -/
def exDirBroken : Directory :=
  ⟨fun _ => Except.error (AmiError.other ("timeout".toList)), fun _ => Except.ok []⟩

/-- Witness for C9 at concrete input. -/
theorem notfound_silent_mode_a_witness :
    processAMIID exDirNone ("ami-11111111".toList) = Except.ok []
    ∧ processAMIID exDirBroken ("ami-11111111".toList)
        = Except.error (ProcError.findByIdFailed ("ami-11111111".toList) ("timeout".toList)) :=
  ⟨(notfound_silent_mode_a exDirNone ("ami-11111111".toList)).1 rfl,
   (notfound_silent_mode_a exDirBroken ("ami-11111111".toList)).2 ("timeout".toList) rfl⟩

/-! ## Claim C10 — mode dispatch by literal prefix test -/

lemma amiIdTag_isPrefixOf_iff (pat : Str) :
    amiIdTag.isPrefixOf pat = true ↔ pat.take 4 = amiIdTag := by
  rw [List.isPrefixOf_iff_prefix, List.prefix_iff_eq_take]
  have h4 : amiIdTag.length = 4 := rfl
  rw [h4, eq_comm]

/-- Claim C10: mode dispatch is decided solely by the first four
characters: every pattern starting with the literal `ami-` (glob
metacharacters or not) is processed as Mode A, every other pattern as
Mode B. -/
theorem mode_dispatch_literal_tag (dir : Directory) (pat : Str) :
    (pat.take 4 = amiIdTag → processPattern dir pat = processAMIID dir pat)
    ∧ (pat.take 4 ≠ amiIdTag → processPattern dir pat = processPatternBasedE dir pat) := by
  constructor
  · intro h
    have hp : amiIdTag.isPrefixOf pat = true := (amiIdTag_isPrefixOf_iff pat).mpr h
    simp [processPattern, hp]
  · intro h
    have hp : amiIdTag.isPrefixOf pat = false := by
      cases hcase : amiIdTag.isPrefixOf pat
      · rfl
      · exact absurd ((amiIdTag_isPrefixOf_iff pat).mp hcase) h
    simp [processPattern, hp]

/-- Witness for C10: the glob-shaped token `ami-*` still dispatches to
Mode A, while `myimg-*` dispatches to Mode B. -/
theorem mode_dispatch_literal_tag_witness :
    processPattern exDirNone ("ami-*".toList) = processAMIID exDirNone ("ami-*".toList)
    ∧ processPattern exDirNone ("myimg-*".toList)
        = processPatternBasedE exDirNone ("myimg-*".toList) :=
  ⟨(mode_dispatch_literal_tag exDirNone ("ami-*".toList)).1 (by decide),
   (mode_dispatch_literal_tag exDirNone ("myimg-*".toList)).2 (by decide)⟩

/-! ## Claim C7 — directory-walk reporting

`ProcessDirectory` logs `len(files)` — the number of eligible files
collected by the walk — not the number of files a write occurred in.  On
a walk over three eligible files of which exactly one contains a stale
identifier, the code reports 3 files while only 1 file was written. -/

/-- Three eligible files, one containing a stale identifier. -/
def exWalkFS : FS := fun p =>
  if p = "a.yaml".toList then some ("use ami-11111111".toList)
  else if p = "b.yaml".toList then some ("hello".toList)
  else if p = "c.yaml".toList then some ("world".toList)
  else none

/-- The walk order of the three files. -/
def exWalkPaths : List Str :=
  ["a.yaml".toList, "b.yaml".toList, "c.yaml".toList]

/-- Evidence for C7: the reported file count is 3 (every eligible file
scanned) although the total substitution count is 1 and exactly one of
the walked files' contents changed. -/
theorem directory_report_counts_scanned_files :
    (ProcessDirectory exWalkFS (fun _ => false) exWalkPaths exPlan).2.1 = 3
    ∧ (ProcessDirectory exWalkFS (fun _ => false) exWalkPaths exPlan).1 = 1
    ∧ (exWalkPaths.filter
        (fun p =>
          !((ProcessDirectory exWalkFS (fun _ => false) exWalkPaths exPlan).2.2 p
              == exWalkFS p))).length = 1 := by
  refine ⟨by decide, by decide, by decide⟩

end AmiUtil
